import Mathlib

/-!
# Verification of the UTBotCpp core slice

A shallow embedding of the three source files of the repository slice:

* `server/src/types/TypesResolver.cpp` — the Type Resolver (registries of
  structs / enums / unions, keyed by the 64-bit canonical-type id).
* `server/src/printers/NativeMakefilePrinter.cpp` — the Native Plan Emitter
  (linker-flag normalizers, path relativization, recursive link-target
  synthesis with its stub-taint tag, executable link-command rewriting).
* `server/src/fetchers/FetcherUtils.cpp` — function-pointer descriptor
  synthesis (`ParamsHandler::getFunctionPointerDeclaration`).

C++ `std::unordered_map` registries are modelled as association lists,
`uint64_t` ids as `Nat`, paths and argument strings as `String`.  Helper
functions of the repository that are not part of the slice
(`StringUtils::split`, `StringUtils::joinWith`, `StringUtils::startsWith`,
`CollectionUtils::erase_if`, the command mutators) are modelled from the
specification's description of them; each such definition is marked in its
doc comment.
-/

namespace UTBot

/-! ## Association-list registries (model of `std::unordered_map<uint64_t, Info>`) -/

/-- Lookup of the entry stored under key `k` (model of `map.find(k)`). -/
def assocLookup {α : Type} : List (Nat × α) → Nat → Option α
  | [], _ => none
  | e :: rest, k => if e.1 = k then some e.2 else assocLookup rest k

/-- Overwrite the value stored under the (existing) key `id`
(model of `iterator->second = info`). -/
def updateEntry {α : Type} (id : Nat) (info : α) (m : List (Nat × α)) : List (Nat × α) :=
  m.map fun e => if e.1 = id then (id, info) else e

/-! ## TypesResolver.cpp: registry-insertion policy -/

/-- Model of `canBeReplaced` from `TypesResolver.cpp`: an existing entry may be replaced
exactly when its stored name is empty and the incoming name is not. -/
def canBeReplaced (nameInMap name : String) : Prop :=
  nameInMap = "" ∧ name ≠ ""

instance (a b : String) : Decidable (canBeReplaced a b) :=
  inferInstanceAs (Decidable (a = "" ∧ b ≠ ""))

/-- Model of `isCandidateToReplace` from `TypesResolver.cpp`: true when the id is absent
from the registry, or the stored entry can be replaced by one named `name`. -/
def isCandidateToReplace {α : Type} (nameOf : α → String) (id : Nat)
    (m : List (Nat × α)) (name : String) : Bool :=
  match assocLookup m id with
  | none => true
  | some old => decide (canBeReplaced (nameOf old) name)

/-- Model of `addInfo` from `TypesResolver.cpp`.  Returns the updated registry together
with a flag recording whether the collision warning
(`LOG_S(WARNING) << "Collision happened between ..."`) was emitted.
`emplace` inserts only when the key is absent; on a present key the entry is
replaced only when `canBeReplaced` holds, and a collision between two
differing names is reported without overwriting. -/
def addInfo {α : Type} (nameOf : α → String) (id : Nat)
    (m : List (Nat × α)) (info : α) : List (Nat × α) × Bool :=
  match assocLookup m id with
  | none => ((id, info) :: m, false)
  | some old =>
      if canBeReplaced (nameOf old) (nameOf info) then
        (updateEntry id info m, false)
      else if nameOf old ≠ "" ∧ nameOf info = "" then
        (m, false)
      else if nameOf old ≠ nameOf info then
        (m, true)
      else
        (m, false)

/-! ## String utilities

`StringUtils::split`, `StringUtils::joinWith` and `StringUtils::startsWith`
are used by `NativeMakefilePrinter.cpp` but live outside the slice.
Modelled from the spec: a `-Wl,…` argument is «treated as a comma-separated
vector whose entries can be filtered individually», so `split` is exact
separator splitting (empty fields preserved) and `joinWith` its inverse. -/

/-- Prepend a character to the first field of a field list. -/
def consField (ch : Char) : List (List Char) → List (List Char)
  | [] => [[ch]]
  | f :: fs => (ch :: f) :: fs

/-- Split a character list at every occurrence of `c`; always returns at least
one (possibly empty) field. -/
def splitChars (c : Char) : List Char → List (List Char)
  | [] => [[]]
  | ch :: rest =>
      if ch = c then [] :: splitChars c rest
      else consField ch (splitChars c rest)

/-- Interleave the separator `sep` between the fields. -/
def joinCharsSep (sep : List Char) : List (List Char) → List Char
  | [] => []
  | [f] => f
  | f :: rest => f ++ sep ++ joinCharsSep sep rest

/-- Modelled from the spec: `StringUtils::split(str, delim)`. -/
def split (s : String) (delim : Char) : List String :=
  (splitChars delim s.data).map String.mk

/-- Modelled from the spec: `StringUtils::joinWith(strings, sep)`. -/
def joinWith (strings : List String) (sep : String) : String :=
  String.mk (joinCharsSep sep.data (strings.map String.data))

/-- Modelled from the spec: `StringUtils::startsWith(str, pattern)`. -/
def startsWith (s pattern : String) : Bool :=
  pattern.data.isPrefixOf s.data

/-! ## NativeMakefilePrinter.cpp: `-Wl` argument normalizers -/

/-- Model of `eraseIfWlOnly`: a stripped vector collapsing to only `-Wl` means
«remove entirely». -/
def eraseIfWlOnly (argument : String) : String :=
  if argument = "-Wl" then "" else argument

/-- Model of `removeLinkerFlag(argument, flag)`: drop every comma-separated option that
starts with `flag`; if nothing was dropped the argument is returned untouched
(`if (erased == 0) return;`), otherwise the remaining options are re-joined
and a bare `-Wl` is erased. -/
def removeLinkerFlag (argument flag : String) : String :=
  let options := split argument ','
  let kept := options.filter fun o => !startsWith o flag
  if kept.length = options.length then argument
  else eraseIfWlOnly (joinWith kept ",")

/-- Model of `removeScriptFlag`: strip `--version-script…` options. -/
def removeScriptFlag (argument : String) : String :=
  removeLinkerFlag argument "--version-script"

/-- The option scan inside `removeSonameFlag`: drop each `-soname` option and
the option immediately following it (the C++ loop checks `option == "-soname"`
before consulting `isSonameNext`). -/
def sonameScan : Bool → List String → List String
  | _, [] => []
  | isSonameNext, o :: rest =>
      if o = "-soname" then sonameScan true rest
      else if isSonameNext then sonameScan false rest
      else o :: sonameScan false rest

/-- Model of `removeSonameFlag`: strip the pair `-soname <name>` from the
comma-separated option vector, then re-join (always) and erase a bare `-Wl`. -/
def removeSonameFlag (argument : String) : String :=
  eraseIfWlOnly (joinWith (sonameScan false (split argument ',')) ",")

/-- Model of `transformCompilerFlagsToLinkerFlags`: rewrite `-Wl,<a>,<b>,…` into the
whitespace-separated `<a> <b> …` (all `-Wl` entries are erased); any argument
whose first comma-field is not `-Wl` is left unchanged. -/
def transformCompilerFlagsToLinkerFlags (argument : String) : String :=
  let options := split argument ','
  match options with
  | [] => argument
  | front :: _ =>
      if front ≠ "-Wl" then argument
      else joinWith (options.filter fun o => o ≠ "-Wl") " "

/-! ## NativeMakefilePrinter.cpp: path relativization -/

/-- Model of `NativeMakefilePrinter::tryChangeToRelativePath`, parameterized by the
emitter's `getRelativePath` function: a bare absolute argument (starting with
`/`) is relativized wholesale, an argument `-I<path>` of length ≥ 3 is
relativized behind the `-I` prefix, and every other argument is returned
unchanged. -/
def tryChangeToRelativePath (getRelativePath : String → String) (argument : String) : String :=
  if startsWith argument "/" then getRelativePath argument
  else if argument.length ≥ 3 && startsWith argument "-I" then
    "-I" ++ getRelativePath (argument.drop 2)
  else argument

/-! ## FetcherUtils.cpp: function-pointer descriptor synthesis -/

/-- Model of a clang `QualType`: its canonical printed form plus the spelling
returned by `getAsString()`. -/
structure QualTypeM where
  canonical : String
  spelling : String
deriving DecidableEq, Repr

/-- Model of `types::Type(realParamType, usedParamTypeString)`. -/
structure TypeM where
  canonical : String
  used : String
deriving DecidableEq, Repr

/-- Model of a clang `FunctionType`: the return type, and the parameter types
when the function has a prototype (`FunctionProtoType`), `none` for a
prototype-less function. -/
structure FunTypeM where
  returnType : QualTypeM
  protoParams : Option (List QualTypeM)
deriving DecidableEq, Repr

/-- One entry of `types::FunctionInfo::params`. -/
structure FunctionParamM where
  type : TypeM
  name : String
deriving DecidableEq, Repr

/-- Model of `types::FunctionInfo` (the function-signature descriptor). -/
structure FunctionInfoM where
  name : String
  returnType : TypeM
  params : List FunctionParamM
  isArray : Bool
deriving DecidableEq, Repr

/-- Model of `ParamsHandler::getType(paramDef, paramDecl)` at `paramDef = paramDecl`:
the canonical form paired with the used spelling. -/
def getTypeM (t : QualTypeM) : TypeM :=
  { canonical := t.canonical, used := t.spelling }

/-- The parameter loop of `getFunctionPointerDeclaration`: each parameter is
auto-named `"param" + std::to_string(++paramCounter)` with `paramCounter`
starting at 0, so names run `param1`, `param2`, …. -/
def numberParams (paramCounter : Nat) : List QualTypeM → List FunctionParamM
  | [] => []
  | t :: ts =>
      { type := getTypeM t, name := "param" ++ toString (paramCounter + 1) }
        :: numberParams (paramCounter + 1) ts

/-- Model of `ParamsHandler::getFunctionPointerDeclaration(fType, fName, mng, isArray)`
from `FetcherUtils.cpp`. -/
def getFunctionPointerDeclaration (fType : FunTypeM) (fName : String)
    (isArray : Bool) : FunctionInfoM :=
  { name := fName
    returnType := { canonical := fType.returnType.canonical
                    used := fType.returnType.spelling }
    params := match fType.protoParams with
      | none => []
      | some ps => numberParams 0 ps
    isArray := isArray }

/-! ## TypesResolver.cpp: declaration data and registries -/

/-- Model of one `clang::FieldDecl` as seen by `resolveStruct` /
`resolveUnion`: everything the resolver reads off the AST node. -/
structure FieldM where
  name : String
  typeCanonical : String
  typeSpelling : String
  isPointerToFunction : Bool
  isArrayOfPointersToFunction : Bool
  funcType : Option FunTypeM
  retPointeeStructName : Option String
  size : Nat
  offset : Nat
deriving DecidableEq, Repr

/-- Model of `types::StructInfo`. -/
structure StructInfoM where
  name : String
  filePath : String
  definition : String
  fields : List FieldM
  functionFields : List (String × FunctionInfoM)
  size : Nat
  alignment : Nat
deriving DecidableEq, Repr

/-- One `types::EnumInfo::EnumEntry`. -/
structure EnumEntryM where
  name : String
  value : String
deriving DecidableEq, Repr

/-- Model of `types::EnumInfo`. -/
structure EnumInfoM where
  name : String
  filePath : String
  definition : String
  size : Nat
  alignment : Nat
  access : Option String
  namesToEntries : List (String × EnumEntryM)
  valuesToEntries : List (String × EnumEntryM)
deriving DecidableEq, Repr

/-- Model of `types::UnionInfo` (like a record, but no field offsets and no
function-field synthesis). -/
structure UnionInfoM where
  name : String
  filePath : String
  definition : String
  fields : List FieldM
  size : Nat
  alignment : Nat
deriving DecidableEq, Repr

/-- The data `resolveStruct` / `resolveUnion` read off a `clang::RecordDecl`:
canonical-type id, tag name, resolved file path, definition text, fields,
size and alignment in bytes. -/
structure RecordDeclM where
  id : Nat
  name : String
  filePath : String
  definition : String
  fields : List FieldM
  size : Nat
  alignment : Nat
deriving DecidableEq, Repr

/-- The data `resolveEnum` reads off a `clang::EnumDecl`; `size` is the byte
size of the promotion type, `access` the `::`-joined qualifier chain, and
`enumerators` the (name, signed value) pairs in declaration order. -/
structure EnumDeclM where
  id : Nat
  name : String
  filePath : String
  definition : String
  size : Nat
  alignment : Nat
  access : Option String
  enumerators : List (String × Int)
deriving DecidableEq, Repr

/-- The tag kind of a `clang::RecordDecl` (`isStruct` / `isClass` /
`isUnion`). -/
inductive RecordKind where
  | structKind
  | classKind
  | unionKind
deriving DecidableEq, Repr

/-- A resolved tag declaration (`type->getAsTagDecl()` when non-null). -/
inductive TagDeclM where
  | record (kind : RecordKind) (d : RecordDeclM)
  | enum (d : EnumDeclM)
deriving DecidableEq, Repr

/-- The mutable state of one resolution pass: the three identity-keyed
registries, the cross-cutting `maximumAlignment` counter, and the
`structsToDeclare` forward-declaration plan. -/
structure ResolverState where
  structs : List (Nat × StructInfoM)
  enums : List (Nat × EnumInfoM)
  unions : List (Nat × UnionInfoM)
  maximumAlignment : Nat
  structsToDeclare : List (String × String)
deriving DecidableEq, Repr

/-- The empty state at the start of a resolution pass. -/
def emptyResolverState : ResolverState :=
  { structs := [], enums := [], unions := [], maximumAlignment := 0,
    structsToDeclare := [] }

/-- The read-only context the resolver borrows from its parent `Fetcher`:
the gtest-path test (`Paths::isGtest`), the per-file set of already declared
struct names (`parent->structsDeclared`), and the main file of the current
translation unit. -/
structure FetcherCtx where
  isGtest : String → Bool
  structsDeclared : String → List String
  mainFilePath : String

/-- The per-field synthesis of `resolveStruct`: a field whose type is a
pointer to function (or an array of such pointers) contributes a
function-signature descriptor keyed by the field name, with the `isArray`
argument taken from `field.type.isArrayOfPointersToFunction()`. -/
def structFunctionFields (fields : List FieldM) : List (String × FunctionInfoM) :=
  (fields.filter fun f => f.isPointerToFunction || f.isArrayOfPointersToFunction).filterMap
    fun f => f.funcType.map fun ft =>
      (f.name, getFunctionPointerDeclaration ft f.name f.isArrayOfPointersToFunction)

/-- The forward-declaration scheduling of `resolveStruct`: a
pointer-to-function field whose return type is a pointer to a record type not
yet declared in the main file's declaration set is scheduled in
`structsToDeclare`. -/
def structsToDeclareOf (ctx : FetcherCtx) (fields : List FieldM) :
    List (String × String) :=
  fields.filterMap fun f =>
    if f.isPointerToFunction then
      match f.retPointeeStructName with
      | some sn =>
          if (ctx.structsDeclared ctx.mainFilePath).contains sn then none
          else some (ctx.mainFilePath, sn)
      | none => none
    else none

/-- Model of `TypesResolver::resolveStruct(D, name)`: skip unless the id is a
replacement candidate; drop declarations from the gtest header tree; otherwise
build the `StructInfo`, insert it through `addInfo` and raise
`maximumAlignment`. -/
def resolveStruct (ctx : FetcherCtx) (d : RecordDeclM) (name : String)
    (s : ResolverState) : ResolverState :=
  if !isCandidateToReplace (fun i => i.name) d.id s.structs name then s
  else if ctx.isGtest d.filePath then s
  else
    let info : StructInfoM :=
      { name := name, filePath := d.filePath, definition := d.definition,
        fields := d.fields, functionFields := structFunctionFields d.fields,
        size := d.size, alignment := d.alignment }
    { s with
      structs := (addInfo (fun i => i.name) d.id s.structs info).1
      structsToDeclare := s.structsToDeclare ++ structsToDeclareOf ctx d.fields
      maximumAlignment := max s.maximumAlignment info.alignment }

/-- Model of `TypesResolver::resolveEnum(EN, name)`: skip unless the id is a
replacement candidate; otherwise build the `EnumInfo` (enumerators indexed
both by name and by stringified signed value), insert it through `addInfo` and
raise `maximumAlignment`.  Note: there is no gtest-path drop on this path. -/
def resolveEnum (ctx : FetcherCtx) (d : EnumDeclM) (name : String)
    (s : ResolverState) : ResolverState :=
  if !isCandidateToReplace (fun i => i.name) d.id s.enums name then s
  else
    let entries := d.enumerators.map fun e =>
      ({ name := e.1, value := toString e.2 } : EnumEntryM)
    let info : EnumInfoM :=
      { name := name, filePath := d.filePath, definition := d.definition,
        size := d.size, alignment := d.alignment, access := d.access,
        namesToEntries := entries.map fun en => (en.name, en),
        valuesToEntries := entries.map fun en => (en.value, en) }
    { s with
      enums := (addInfo (fun i => i.name) d.id s.enums info).1
      maximumAlignment := max s.maximumAlignment info.alignment }

/-- Model of `TypesResolver::resolveUnion(D, name)`: like `resolveStruct` (including
the gtest drop) but with no function-field synthesis and no
forward-declaration scheduling. -/
def resolveUnion (ctx : FetcherCtx) (d : RecordDeclM) (name : String)
    (s : ResolverState) : ResolverState :=
  if !isCandidateToReplace (fun i => i.name) d.id s.unions name then s
  else if ctx.isGtest d.filePath then s
  else
    let info : UnionInfoM :=
      { name := name, filePath := d.filePath, definition := d.definition,
        fields := d.fields, size := d.size, alignment := d.alignment }
    { s with
      unions := (addInfo (fun i => i.name) d.id s.unions info).1
      maximumAlignment := max s.maximumAlignment info.alignment }

/-- Model of `TypesResolver::resolve(type)`: a type whose underlying declaration is not
a tag declaration (`getAsTagDecl() == nullptr`, modelled as `none`) is
ignored; otherwise dispatch on the tag kind with the declaration's own name. -/
def resolve (ctx : FetcherCtx) (tagDecl : Option TagDeclM)
    (s : ResolverState) : ResolverState :=
  match tagDecl with
  | none => s
  | some (.record kind d) =>
      match kind with
      | .unionKind => resolveUnion ctx d d.name s
      | .structKind => resolveStruct ctx d d.name s
      | .classKind => resolveStruct ctx d d.name s
  | some (.enum d) => resolveEnum ctx d d.name s

/-- One resolution pass over a list of visited types, in AST visitation
order. -/
def runPass (ctx : FetcherCtx) (decls : List (Option TagDeclM))
    (s : ResolverState) : ResolverState :=
  decls.foldl (fun acc q => resolve ctx q acc) s

/-- The alignments of all entries of the three registries. -/
def registryAlignments (s : ResolverState) : List Nat :=
  s.structs.map (fun e => e.2.alignment)
    ++ s.enums.map (fun e => e.2.alignment)
    ++ s.unions.map (fun e => e.2.alignment)

/-- The value `max (e.alignment for e in records, enums, unions)` (0 when empty). -/
def regMaxAlign (s : ResolverState) : Nat :=
  (registryAlignments s).foldr max 0

/-- The registry a tag declaration inserts into: 0 = structs (struct and
class tags alike), 1 = unions, 2 = enums. -/
def registryOf : TagDeclM → Nat
  | .record .unionKind _ => 1
  | .record _ _ => 0
  | .enum _ => 2

/-- The canonical-type id of a tag declaration. -/
def idOf : TagDeclM → Nat
  | .record _ d => d.id
  | .enum d => d.id

/-- The alignment a tag declaration carries. -/
def alignOf : TagDeclM → Nat
  | .record _ d => d.alignment
  | .enum d => d.alignment

/-! ## NativeMakefilePrinter.cpp: recursive link-target synthesis (stub taint) -/

/-- Model of `BuildResult::Type`: the stub-provenance tag, a monoid under `|=` with
identity `NONE` and `MIXED = NO_STUBS ∪ ALL_STUBS`. -/
inductive BuildType where
  | NONE
  | NO_STUBS
  | ALL_STUBS
  | MIXED
deriving DecidableEq, Repr

/-- The union `|=` on `BuildResult::Type`. -/
def BuildType.union : BuildType → BuildType → BuildType
  | .NONE, t => t
  | .MIXED, _ => .MIXED
  | .NO_STUBS, .NONE => .NO_STUBS
  | .NO_STUBS, .NO_STUBS => .NO_STUBS
  | .NO_STUBS, .ALL_STUBS => .MIXED
  | .NO_STUBS, .MIXED => .MIXED
  | .ALL_STUBS, .NONE => .ALL_STUBS
  | .ALL_STUBS, .ALL_STUBS => .ALL_STUBS
  | .ALL_STUBS, .NO_STUBS => .MIXED
  | .ALL_STUBS, .MIXED => .MIXED

/-- A node of the link-dependency DAG, unfolded as a tree: either an object
file or a link unit with its input units (`linkUnitInfo->files`). -/
inductive LinkUnit where
  | obj (path : String)
  | link (path : String) (children : List LinkUnit)

/-- The output path identifying a unit in the `buildResults` memo map. -/
def LinkUnit.path : LinkUnit → String
  | .obj p => p
  | .link p _ => p

/-- The tag `addObjectFile` assigns to one object file: `ALL_STUBS` when its
source is in the stub set, `NO_STUBS` otherwise. -/
def objTag (stub : String → Bool) (p : String) : BuildType :=
  if stub p then .ALL_STUBS else .NO_STUBS

mutual
/-- All object files reachable from a unit in the link-dependency DAG. -/
def reachableObjects : LinkUnit → List String
  | .obj p => [p]
  | .link _ cs => reachableObjectsList cs
/-- All object files reachable from a list of units, in order. -/
def reachableObjectsList : List LinkUnit → List String
  | [] => []
  | c :: cs => reachableObjects c ++ reachableObjectsList cs
end

/-- Union of a list of tags (left fold with identity `NONE`, mirroring
`unitType |= buildResult.type`). -/
def tagsUnion (l : List BuildType) : BuildType :=
  l.foldl BuildType.union .NONE

/-- The tag the specification assigns to a unit: the union of the tags of all
object files reachable from it. -/
def specLinkTag (stub : String → Bool) (u : LinkUnit) : BuildType :=
  tagsUnion ((reachableObjects u).map (objTag stub))

/-- Lookup in the `buildResults` memo map. -/
def lookupCache : List (String × BuildType) → String → Option BuildType
  | [], _ => none
  | e :: rest, p => if e.1 = p then some e.2 else lookupCache rest p

mutual
/-- Model of `NativeMakefilePrinter::addLinkTargetRecursively`, restricted to the
`buildResults` memo map and the `type` tag of the returned `BuildResult`
(rule emission and the recompiled output path do not feed back into the tag).
A unit already in `buildResults` returns its memoized tag; an object file is
delegated to `addObjectFile`; otherwise the children are processed in order,
their tags unioned starting from `NONE`, and the result memoized. -/
def addLinkTargetRecursively (stub : String → Bool)
    (cache : List (String × BuildType)) :
    LinkUnit → BuildType × List (String × BuildType)
  | .obj p =>
      match lookupCache cache p with
      | some t => (t, cache)
      | none => (objTag stub p, (p, objTag stub p) :: cache)
  | .link p cs =>
      match lookupCache cache p with
      | some t => (t, cache)
      | none =>
          let r := addLinkChildren stub cache .NONE cs
          (r.1, (p, r.1) :: r.2)
def addLinkChildren (stub : String → Bool)
    (cache : List (String × BuildType)) (acc : BuildType) :
    List LinkUnit → BuildType × List (String × BuildType)
  | [] => (acc, cache)
  | c :: cs =>
      let r := addLinkTargetRecursively stub cache c
      addLinkChildren stub r.2 (acc.union r.1) cs
end

mutual
/-- A semantic tag assignment `sem` is coherent with a unit tree when every
node's path is mapped to that node's reachable-objects union — the
counterpart of «the same output path denotes the same link unit» in the real
DAG, which makes memoization sound. -/
def coherent (stub : String → Bool) (sem : String → BuildType) : LinkUnit → Bool
  | .obj p => sem p == objTag stub p
  | .link p cs =>
      coherentList stub sem cs && (sem p == specLinkTag stub (.link p cs))
/-- Model of `coherent` over a list of children. -/
def coherentList (stub : String → Bool) (sem : String → BuildType) :
    List LinkUnit → Bool
  | [] => true
  | c :: cs => coherent stub sem c && coherentList stub sem cs
end

/-! ## NativeMakefilePrinter.cpp: executable link-command rewriting -/

/-- Model of a `utbot::LinkCommand`: the linker (`argv[0]`), the remaining
arguments, the output path, the working directory, and the command-category
tests `isArchiveCommand()` / `isSharedLibraryCommand()`. -/
structure LinkCmd where
  linker : String
  args : List String
  output : String
  dir : String
  isArchive : Bool
  isShared : Bool
deriving DecidableEq, Repr

/-- The emitter context consumed by the link-command rewrite: the system
linker path (`Paths::getLd()`), the bundled-toolchain mapping, the coverage
and sanitizer link flags, the relativization functions, and the library-path
analysis helpers. -/
structure EmitterCtx where
  ldPath : String
  bundledCompilerOf : String → String
  coverageLinkFlags : String
  sanitizerLinkFlags : String
  getRelativePath : String → String
  relativeForLinker : String → String
  libraryAbsolutePath : String → Option String
  isSubOfBuildDir : String → Bool
  recompiledOf : String → String

/-- Modelled from the spec: `DynamicLibraryUtils::getLibraryDirectoryFlag`,
the library-directory flag for a directory. -/
def getLibraryDirectoryFlag (dir : String) : String :=
  "-L" ++ dir

/-- Modelled from the spec: the `setOptimizationLevel` command mutator —
force the given level, replacing any present `-O…` flag. -/
def setOptimizationLevel (level : String) (args : List String) : List String :=
  if args.any (fun a => startsWith a "-O") then
    args.map fun a => if startsWith a "-O" then level else a
  else args ++ [level]

/-- Modelled from the spec: serialization of a command whose action changes
into the command's working directory. -/
def cmdToString (c : LinkCmd) : String :=
  "cd " ++ c.dir ++ " && "
    ++ String.intercalate " " (c.linker :: c.args ++ ["-o", c.output])

/-- The library-directory flags collected while scanning the (stripped)
argument vector: every library-path argument resolving under the project
build tree contributes the corresponding recompiled directory flag. -/
def libraryDirFlags (ctx : EmitterCtx) (args : List String) : List String :=
  args.filterMap fun a =>
    match ctx.libraryAbsolutePath a with
    | some p =>
        if ctx.isSubOfBuildDir p then
          some (getLibraryDirectoryFlag (ctx.recompiledOf p))
        else none
    | none => none

/-- The per-command transformation inside
`NativeMakefilePrinter::addLinkTargetRecursively` (lines 506–571): erase
`-static`, substitute recompiled inputs, choose the linker (`ld` for a
relocatable executable, the bundled compiler otherwise), rewrite `-Wl,…`
arguments for `ld`, strip script/soname flags, collect recompiled library
directories, add the whole-archive block for library outputs, prepend
`$(LDFLAGS)` and `-shared` / `-r`, relativize everything, and render the
action (with the `objcopy --redefine-sym main=main__` suffix for a
relocatable executable).  Returns the transformed command and the emitted
action text. -/
def transformLinkCommand (ctx : EmitterCtx) (isExecutable transformExeToLib : Bool)
    (files : List String) (fileMapping : String → String)
    (recompiledFile : String) (cmd : LinkCmd) : LinkCmd × String :=
  let args1 := (cmd.args.filter fun a => a ≠ "-static").map
    fun a => if files.contains a then fileMapping a else a
  let c0 : LinkCmd := { cmd with args := args1, output := recompiledFile }
  let c1 :=
    if !cmd.isArchive then
      let c1a :=
        if isExecutable && !transformExeToLib then
          { c0 with linker := ctx.ldPath
                    args := c0.args.map transformCompilerFlagsToLinkerFlags }
        else { c0 with linker := ctx.bundledCompilerOf c0.linker }
      let strippedArgs := c1a.args.map fun a => removeSonameFlag (removeScriptFlag a)
      let c1b := { c1a with args := libraryDirFlags ctx strippedArgs ++ strippedArgs }
      let c1c :=
        if !isExecutable || transformExeToLib then
          let argsW := ["-Wl,--allow-multiple-definition", ctx.coverageLinkFlags,
                        ctx.sanitizerLinkFlags, "-Wl,--whole-archive"] ++ c1b.args
          let argsS := if cmd.isShared then argsW ++ ["$(STUB_OBJECT_FILES)"] else argsW
          { c1b with args := setOptimizationLevel "-O0" (argsS ++ ["-Wl,--no-whole-archive"]) }
        else c1b
      let c1d := { c1c with args := "$(LDFLAGS)" :: c1c.args }
      if isExecutable then
        { c1d with args := (if transformExeToLib then "-shared" else "-r") :: c1d.args }
      else c1d
    else c0
  let c2 := { c1 with linker := ctx.relativeForLinker c1.linker }
  let c3 : LinkCmd :=
    { c2 with
      linker := tryChangeToRelativePath ctx.getRelativePath c2.linker
      args := c2.args.map (tryChangeToRelativePath ctx.getRelativePath)
      output := tryChangeToRelativePath ctx.getRelativePath c2.output }
  let action :=
    if isExecutable && !transformExeToLib then
      cmdToString c3 ++ " && objcopy --redefine-sym main=main__ " ++ c3.output
    else cmdToString c3
  (c3, action)

/-! ## Invariants used by the statements and proofs -/

/-- Every entry of the `buildResults` memo map carries the tag `sem` assigns
to its path. -/
def CacheOK (sem : String → BuildType) (cache : List (String × BuildType)) : Prop :=
  ∀ e ∈ cache, e.2 = sem e.1

/-- The per-unit correctness statement threaded through the traversal:
starting from any sound memo map, the returned tag is the reachable-objects
union and the memo map stays sound. -/
def LinkP (stub : String → Bool) (sem : String → BuildType) (u : LinkUnit) : Prop :=
  ∀ cache, CacheOK sem cache → coherent stub sem u = true →
    (addLinkTargetRecursively stub cache u).1 = specLinkTag stub u ∧
    CacheOK sem (addLinkTargetRecursively stub cache u).2

/-- Every registry entry's alignment is determined by its registry and id —
the model-side counterpart of «alignment is computed from the canonical type
that also determines the id». -/
def AlignsOK (alignOfId : Nat → Nat → Nat) (s : ResolverState) : Prop :=
  (∀ e ∈ s.structs, e.2.alignment = alignOfId 0 e.1) ∧
  (∀ e ∈ s.unions, e.2.alignment = alignOfId 1 e.1) ∧
  (∀ e ∈ s.enums, e.2.alignment = alignOfId 2 e.1)

/-- The resolution-pass invariant: `maximumAlignment` tracks the registry
maximum, and entries have id-determined alignments. -/
def AlignInvariant (alignOfId : Nat → Nat → Nat) (s : ResolverState) : Prop :=
  s.maximumAlignment = regMaxAlign s ∧ AlignsOK alignOfId s

/-! ## Association-list lemmas -/

theorem assocLookup_updateEntry {α : Type} (id : Nat) (info : α)
    (m : List (Nat × α)) (old : α) (h : assocLookup m id = some old) :
    assocLookup (updateEntry id info m) id = some info := by
  induction m with
  | nil => simp [assocLookup] at h
  | cons e rest ih =>
    by_cases he : e.1 = id
    · simp [updateEntry, assocLookup, he]
    · simp [assocLookup, he] at h
      simpa [updateEntry, assocLookup, he] using ih h

theorem assocLookup_mem {α : Type} (m : List (Nat × α)) (k : Nat) (v : α)
    (h : assocLookup m k = some v) : (k, v) ∈ m := by
  induction m with
  | nil => simp [assocLookup] at h
  | cons e rest ih =>
    by_cases he : e.1 = k
    · simp [assocLookup, he] at h
      have hek : e = (k, v) := by cases e; simp_all
      exact List.mem_cons.mpr (Or.inl hek.symm)
    · simp [assocLookup, he] at h
      exact List.mem_cons_of_mem _ (ih h)

/-! ## C1: registry-insertion policy -/

/-- C1.  For every type-registry insertion under a given canonical-type
id: if the existing entry has an empty name and the new one a non-empty name,
the new entry replaces the old (and the id then maps to the new entry); if
both names are non-empty and equal, the registry is unchanged and no
collision is reported; if both names are non-empty and differ, the registry
is unchanged (the first entry is kept) and the collision diagnostic is
reported.  The statement is generic in the info type, so it covers the
struct, enum and union registries alike. -/
theorem addInfo_insertion_policy {α : Type} (nameOf : α → String) (id : Nat)
    (m : List (Nat × α)) (info old : α)
    (hold : assocLookup m id = some old) :
    (nameOf old = "" → nameOf info ≠ "" →
        addInfo nameOf id m info = (updateEntry id info m, false) ∧
        assocLookup (addInfo nameOf id m info).1 id = some info) ∧
    (nameOf old ≠ "" → nameOf info = nameOf old →
        addInfo nameOf id m info = (m, false)) ∧
    (nameOf old ≠ "" → nameOf info ≠ "" → nameOf old ≠ nameOf info →
        addInfo nameOf id m info = (m, true)) := by
  refine ⟨fun h1 h2 => ?_, fun h1 h2 => ?_, fun h1 h2 h3 => ?_⟩
  · have hrep : canBeReplaced (nameOf old) (nameOf info) := ⟨h1, h2⟩
    have heq : addInfo nameOf id m info = (updateEntry id info m, false) := by
      simp [addInfo, hold, hrep]
    exact ⟨heq, by rw [heq]; exact assocLookup_updateEntry id info m old hold⟩
  · have hrep : ¬ canBeReplaced (nameOf old) (nameOf info) := fun hc => h1 hc.1
    have hmid : ¬ (nameOf old ≠ "" ∧ nameOf info = "") := fun hc => h1 (h2 ▸ hc.2)
    have hne : ¬ (nameOf old ≠ nameOf info) := fun hc => hc h2.symm
    simp [addInfo, hold, hrep, hmid, hne]
  · have hrep : ¬ canBeReplaced (nameOf old) (nameOf info) := fun hc => h1 hc.1
    have hmid : ¬ (nameOf old ≠ "" ∧ nameOf info = "") := fun hc => h2 hc.2
    simp [addInfo, hold, hrep, hmid, h3]

/-- Witness for C1 at a concrete collision: two differing non-empty names
keep the first entry and report the collision. -/
theorem addInfo_insertion_policy_witness :
    addInfo (fun s => s) 1 [(1, "A")] "B" = ([(1, "A")], true) :=
  (addInfo_insertion_policy (fun s => s) 1 [(1, "A")] "B" "A" (by decide)).2.2
    (by decide) (by decide) (by decide)

/-! ## C10: non-tag inputs are a no-op -/

/-- C10.  `resolve` on a type whose underlying declaration is not a tag
declaration (`getAsTagDecl()` returns null, modelled as `none`) leaves the
whole resolver state — all three registries, `maximumAlignment`,
`structsToDeclare` — unchanged. -/
theorem resolve_non_tag_noop (ctx : FetcherCtx) (s : ResolverState) :
    resolve ctx none s = s := rfl

/-! ## C4: path relativization -/

/-- Counterexample for C4 as stated: a `-L`-prefixed argument embedding an
absolute path is not relativized by `tryChangeToRelativePath` (here the
relativization function drops the leading slash, so a relativized result
would be `-Llib`). -/
theorem tryChangeToRelativePath_dashL_counterexample :
    tryChangeToRelativePath (fun s => s.drop 1) "-L/lib" ≠
      "-L" ++ (fun s : String => s.drop 1) "/lib" := by decide

/-- C4, amended.  `tryChangeToRelativePath` relativizes exactly the bare
absolute arguments (starting with `/`) and the `-I`-prefixed arguments of
length ≥ 3, both through the same single function `getRelativePath`; every
other argument — including `-iquote…` and `-L…` prefixed ones — is returned
unchanged. -/
theorem tryChangeToRelativePath_spec (rel : String → String) (arg : String) :
    (startsWith arg "/" = true → tryChangeToRelativePath rel arg = rel arg) ∧
    (startsWith arg "/" = false → arg.length ≥ 3 → startsWith arg "-I" = true →
        tryChangeToRelativePath rel arg = "-I" ++ rel (arg.drop 2)) ∧
    (startsWith arg "/" = false → (arg.length < 3 ∨ startsWith arg "-I" = false) →
        tryChangeToRelativePath rel arg = arg) := by
  refine ⟨fun h1 => ?_, fun h1 h2 h3 => ?_, fun h1 h2 => ?_⟩
  · simp [tryChangeToRelativePath, h1]
  · simp [tryChangeToRelativePath, h1, h2, h3]
  · rcases h2 with h2 | h2
    · simp [tryChangeToRelativePath, h1, Nat.not_le_of_lt h2]
    · simp [tryChangeToRelativePath, h1, h2]

/-- Witness for C4: a `-iquote`-prefixed absolute path passes through
unchanged. -/
theorem tryChangeToRelativePath_spec_witness :
    tryChangeToRelativePath (fun s => s.drop 1) "-iquote/a" = "-iquote/a" :=
  (tryChangeToRelativePath_spec (fun s => s.drop 1) "-iquote/a").2.2
    (by decide) (Or.inr (by decide))

/-! ## C3: gtest-tree declarations -/

/-- Counterexample for C3 as stated: an *enum* declaration whose resolved
file path lies in the gtest header tree is **not** dropped — `resolveEnum`
has no gtest-path check, so an entry is added to the enum registry. -/
theorem resolveEnum_gtest_not_dropped :
    (resolve
        { isGtest := fun p => p == "gtest/include/gtest.h"
          structsDeclared := fun _ => []
          mainFilePath := "main.c" }
        (some (.enum
          { id := 7, name := "E", filePath := "gtest/include/gtest.h",
            definition := "enum E", size := 4, alignment := 4,
            access := none, enumerators := [] }))
        emptyResolverState).enums ≠ [] := by decide

/-- C3, amended.  Record and union declarations whose resolved file path
lies in the gtest header tree are dropped silently — the resolver state is
completely unchanged; enum declarations are *not* subject to this check. -/
theorem gtest_record_union_dropped (ctx : FetcherCtx) (d : RecordDeclM)
    (name : String) (s : ResolverState) (h : ctx.isGtest d.filePath = true) :
    resolveStruct ctx d name s = s ∧ resolveUnion ctx d name s = s := by
  constructor
  · unfold resolveStruct
    split
    · rfl
    · simp [h]
  · unfold resolveUnion
    split
    · rfl
    · simp [h]

/-- Witness for C3: a concrete struct declaration inside the gtest tree
leaves the empty state untouched. -/
theorem gtest_record_union_dropped_witness :
    resolveStruct
        { isGtest := fun p => p == "gtest/include/gtest.h"
          structsDeclared := fun _ => []
          mainFilePath := "main.c" }
        { id := 3, name := "S", filePath := "gtest/include/gtest.h",
          definition := "struct S", fields := [], size := 1, alignment := 1 }
        "S" emptyResolverState = emptyResolverState :=
  (gtest_record_union_dropped
      { isGtest := fun p => p == "gtest/include/gtest.h"
        structsDeclared := fun _ => []
        mainFilePath := "main.c" }
      { id := 3, name := "S", filePath := "gtest/include/gtest.h",
        definition := "struct S", fields := [], size := 1, alignment := 1 }
      "S" emptyResolverState (by decide)).1

/-! ## C5: the S2 linker-argument scenario -/

/-- C5.  On the literal argument
`-Wl,-soname,libx.so.1,--version-script=v.lds,-rpath,/lib`, applying
`removeSonameFlag` and then `removeScriptFlag` yields exactly
`-Wl,-rpath,/lib`. -/
theorem soname_then_script_scenario :
    removeScriptFlag
        (removeSonameFlag "-Wl,-soname,libx.so.1,--version-script=v.lds,-rpath,/lib")
      = "-Wl,-rpath,/lib" := by decide

/-! ## C9: function-pointer descriptors -/

theorem numberParams_names (ps : List QualTypeM) (c : Nat) :
    (numberParams c ps).map (fun p => p.name)
      = (List.range ps.length).map (fun i => "param" ++ toString (c + i + 1)) := by
  induction ps generalizing c with
  | nil => simp [numberParams]
  | cons t ts ih =>
    simp only [numberParams, List.map_cons, List.length_cons,
      List.range_succ_eq_map, List.map_map, ih]
    refine congrArg₂ _ (congrArg _ (congrArg toString (by omega))) ?_
    refine List.map_congr_left fun i _ => ?_
    exact congrArg (fun n => "param" ++ toString n) (by omega)

theorem numberParams_types (ps : List QualTypeM) (c : Nat) :
    (numberParams c ps).map (fun p => p.type) = ps.map getTypeM := by
  induction ps generalizing c with
  | nil => rfl
  | cons t ts ih => simp [numberParams, ih]

/-- C9.  `getFunctionPointerDeclaration` synthesizes a descriptor whose
return type is the function's return type, whose parameters appear in
declaration order auto-named `param1`, `param2`, … starting at `param1`, and
whose `isArray` flag is exactly the flag passed by the caller —
`resolveStruct` passes `field.type.isArrayOfPointersToFunction()`, so a plain
function pointer gets `false`.  In particular a struct field of type
`int (*)(char)` yields return type `int`, the single parameter
`{type: char, name: "param1"}` and `isArray = false`. -/
theorem functionPointer_descriptor :
    (∀ (ret : QualTypeM) (ps : List QualTypeM) (n : String) (isArr : Bool),
        (getFunctionPointerDeclaration ⟨ret, some ps⟩ n isArr).name = n ∧
        (getFunctionPointerDeclaration ⟨ret, some ps⟩ n isArr).returnType
            = { canonical := ret.canonical, used := ret.spelling } ∧
        (getFunctionPointerDeclaration ⟨ret, some ps⟩ n isArr).isArray = isArr ∧
        (getFunctionPointerDeclaration ⟨ret, some ps⟩ n isArr).params.map (fun p => p.name)
            = (List.range ps.length).map (fun i => "param" ++ toString (i + 1)) ∧
        (getFunctionPointerDeclaration ⟨ret, some ps⟩ n isArr).params.map (fun p => p.type)
            = ps.map getTypeM) ∧
    structFunctionFields
        [{ name := "fp", typeCanonical := "int (*)(char)",
           typeSpelling := "int (*)(char)", isPointerToFunction := true,
           isArrayOfPointersToFunction := false,
           funcType := some ⟨⟨"int", "int"⟩, some [⟨"char", "char"⟩]⟩,
           retPointeeStructName := none, size := 8, offset := 0 }]
      = [("fp",
          { name := "fp", returnType := { canonical := "int", used := "int" },
            params := [{ type := { canonical := "char", used := "char" },
                         name := "param1" }],
            isArray := false })] := by
  refine ⟨fun ret ps n isArr => ⟨rfl, rfl, rfl, ?_, ?_⟩, by decide⟩
  · show (numberParams 0 ps).map (fun p => p.name) = _
    rw [numberParams_names]
    exact List.map_congr_left fun i _ =>
      congrArg (fun n => "param" ++ toString n) (by omega)
  · exact numberParams_types ps 0

/-! ## String splitting lemmas (towards C6) -/

theorem consField_cons (ch : Char) (f : List Char) (fs : List (List Char)) :
    consField ch (f :: fs) = (ch :: f) :: fs := rfl

theorem splitChars_ne_nil (c : Char) (l : List Char) : splitChars c l ≠ [] := by
  induction l with
  | nil => simp [splitChars]
  | cons ch rest ih =>
    simp only [splitChars]
    by_cases h : ch = c
    · simp [h]
    · rcases hr : splitChars c rest with _ | ⟨f, fs⟩
      · exact absurd hr ih
      · simp [h, consField]

theorem mem_splitChars_no_delim (c : Char) (l : List Char) :
    ∀ f ∈ splitChars c l, c ∉ f := by
  induction l with
  | nil =>
    intro f hf
    simp [splitChars] at hf
    simp [hf]
  | cons ch rest ih =>
    intro f hf
    simp only [splitChars] at hf
    by_cases h : ch = c
    · rw [if_pos h] at hf
      rcases List.mem_cons.mp hf with rfl | hf2
      · simp
      · exact ih f hf2
    · rw [if_neg h] at hf
      rcases hr : splitChars c rest with _ | ⟨fld, flds⟩
      · exact absurd hr (splitChars_ne_nil c rest)
      · rw [hr, consField_cons] at hf
        have hmem : ∀ g ∈ fld :: flds, c ∉ g := by rw [← hr]; exact ih
        rcases List.mem_cons.mp hf with rfl | hf2
        · intro hin
          rcases List.mem_cons.mp hin with heq | hin2
          · exact h heq.symm
          · exact hmem fld (List.mem_cons_self _ _) hin2
        · exact hmem f (List.mem_cons_of_mem _ hf2)

theorem splitChars_no_delim (c : Char) (l : List Char) (h : c ∉ l) :
    splitChars c l = [l] := by
  induction l with
  | nil => rfl
  | cons ch rest ih =>
    have hch : ¬ ch = c := fun he => h (he ▸ List.mem_cons_self _ _)
    have hrest : c ∉ rest := fun hm => h (List.mem_cons_of_mem _ hm)
    simp [splitChars, hch, ih hrest, consField]

theorem splitChars_append_delim (c : Char) (f t : List Char) (h : c ∉ f) :
    splitChars c (f ++ c :: t) = f :: splitChars c t := by
  induction f with
  | nil => simp [splitChars]
  | cons a f' ih =>
    have ha : ¬ a = c := fun he => h (he ▸ List.mem_cons_self _ _)
    have hf' : c ∉ f' := fun hm => h (List.mem_cons_of_mem _ hm)
    show splitChars c (a :: (f' ++ c :: t)) = (a :: f') :: splitChars c t
    simp [splitChars, ha, ih hf']
    rcases hr : splitChars c t with _ | ⟨fld, flds⟩
    · exact absurd hr (splitChars_ne_nil c t)
    · simp [consField]

theorem splitChars_join (c : Char) (fs : List (List Char)) (hne : fs ≠ [])
    (hfree : ∀ f ∈ fs, c ∉ f) :
    splitChars c (joinCharsSep [c] fs) = fs := by
  induction fs with
  | nil => exact absurd rfl hne
  | cons f rest ih =>
    cases rest with
    | nil =>
      show splitChars c (joinCharsSep [c] [f]) = [f]
      exact splitChars_no_delim c f (hfree f (List.mem_cons_self _ _))
    | cons f' rest' =>
      show splitChars c (f ++ [c] ++ joinCharsSep [c] (f' :: rest')) = f :: (f' :: rest')
      rw [List.append_assoc, List.singleton_append,
        splitChars_append_delim c f _ (hfree f (List.mem_cons_self _ _)),
        ih (by simp) (fun g hg => hfree g (List.mem_cons_of_mem _ hg))]

theorem string_mk_data (s : String) : String.mk s.data = s := by
  cases s
  rfl

theorem split_ne_nil (s : String) (c : Char) : split s c ≠ [] := by
  unfold split
  intro h
  exact splitChars_ne_nil c s.data (List.map_eq_nil_iff.mp h)

theorem mem_split_no_comma (s : String) (o : String) (h : o ∈ split s ',') :
    ',' ∉ o.data := by
  unfold split at h
  rcases List.mem_map.mp h with ⟨f, hf, rfl⟩
  exact mem_splitChars_no_delim ',' s.data f hf

theorem split_joinWith (ss : List String) (hne : ss ≠ [])
    (hfree : ∀ o ∈ ss, ',' ∉ o.data) :
    split (joinWith ss ",") ',' = ss := by
  unfold split joinWith
  show (splitChars ',' (joinCharsSep [','] (ss.map String.data))).map String.mk = ss
  rw [splitChars_join ',' (ss.map String.data) (by simpa using hne)
      (fun f hf => by
        rcases List.mem_map.mp hf with ⟨o, ho, rfl⟩
        exact hfree o ho)]
  rw [List.map_map]
  exact List.map_id'' string_mk_data ss

/-! ## C6: idempotence of the flag removers -/

theorem filter_length_eq_self {α : Type} (p : α → Bool) (l : List α)
    (h : (l.filter p).length = l.length) : l.filter p = l := by
  induction l with
  | nil => rfl
  | cons a t ih =>
    by_cases hp : p a = true
    · rw [List.filter_cons_of_pos hp] at h ⊢
      simp only [List.length_cons, Nat.add_right_cancel_iff] at h
      rw [ih h]
    · exfalso
      rw [List.filter_cons_of_neg (by simp [hp])] at h
      have hle := t.length_filter_le p
      simp only [List.length_cons] at h
      omega

theorem startsWith_empty_false (flag : String) (hflag : flag.data ≠ []) :
    startsWith "" flag = false := by
  unfold startsWith
  rcases hd : flag.data with _ | ⟨c, cs⟩
  · exact absurd hd hflag
  · rfl

theorem removeLinkerFlag_empty_arg (flag : String) (hflag : flag.data ≠ []) :
    removeLinkerFlag "" flag = "" := by
  have hsplit : split "" ',' = [""] := rfl
  simp [removeLinkerFlag, hsplit, startsWith_empty_false flag hflag]

theorem removeLinkerFlag_idem (a flag : String) (hflag : flag.data ≠ []) :
    removeLinkerFlag (removeLinkerFlag a flag) flag = removeLinkerFlag a flag := by
  by_cases h :
      ((split a ',').filter (fun o => !startsWith o flag)).length = (split a ',').length
  · have ha : removeLinkerFlag a flag = a := by simp [removeLinkerFlag, h]
    rw [ha]
    exact ha
  · have hres : removeLinkerFlag a flag
        = eraseIfWlOnly (joinWith ((split a ',').filter (fun o => !startsWith o flag)) ",") := by
      simp [removeLinkerFlag, h]
    have hfree : ∀ o ∈ (split a ',').filter (fun o => !startsWith o flag), ',' ∉ o.data :=
      fun o ho => mem_split_no_comma a o (List.mem_of_mem_filter ho)
    have hnomatch : ∀ o ∈ (split a ',').filter (fun o => !startsWith o flag),
        startsWith o flag = false := fun o ho => by
      have := List.of_mem_filter ho
      simpa using this
    rcases hk : (split a ',').filter (fun o => !startsWith o flag) with _ | ⟨k0, krest⟩
    · have h0 : removeLinkerFlag a flag = "" := by
        rw [hres, hk]
        rfl
      rw [h0]
      exact removeLinkerFlag_empty_arg flag hflag
    · by_cases hj : joinWith ((split a ',').filter (fun o => !startsWith o flag)) "," = "-Wl"
      · have h0 : removeLinkerFlag a flag = "" := by
          rw [hres, hj]
          rfl
        rw [h0]
        exact removeLinkerFlag_empty_arg flag hflag
      · have h1 : removeLinkerFlag a flag
            = joinWith ((split a ',').filter (fun o => !startsWith o flag)) "," := by
          rw [hres]
          simp [eraseIfWlOnly, hj]
        rw [h1]
        have hsplitj :
            split (joinWith ((split a ',').filter (fun o => !startsWith o flag)) ",") ','
              = (split a ',').filter (fun o => !startsWith o flag) :=
          split_joinWith _ (by rw [hk]; simp) hfree
        have hfilter :
            ((split a ',').filter (fun o => !startsWith o flag)).filter
                (fun o => !startsWith o flag)
              = (split a ',').filter (fun o => !startsWith o flag) :=
          List.filter_eq_self.mpr fun o ho => by simp [hnomatch o ho]
        simp [removeLinkerFlag, hsplitj, hfilter]

theorem sonameScan_mem (l : List String) :
    ∀ (b : Bool) (o : String), o ∈ sonameScan b l → o ∈ l := by
  induction l with
  | nil =>
    intro b o h
    simp [sonameScan] at h
  | cons x rest ih =>
    intro b o h
    simp only [sonameScan] at h
    by_cases hx : x = "-soname"
    · rw [if_pos hx] at h
      exact List.mem_cons_of_mem _ (ih true o h)
    · rw [if_neg hx] at h
      cases b with
      | true =>
        simp only [if_pos] at h
        exact List.mem_cons_of_mem _ (ih false o h)
      | false =>
        simp only [Bool.false_eq_true, if_false] at h
        rcases List.mem_cons.mp h with rfl | h2
        · exact List.mem_cons_self _ _
        · exact List.mem_cons_of_mem _ (ih false o h2)

theorem sonameScan_no_soname (l : List String) :
    ∀ b : Bool, "-soname" ∉ sonameScan b l := by
  induction l with
  | nil =>
    intro b h
    simp [sonameScan] at h
  | cons x rest ih =>
    intro b h
    simp only [sonameScan] at h
    by_cases hx : x = "-soname"
    · rw [if_pos hx] at h
      exact ih true h
    · rw [if_neg hx] at h
      cases b with
      | true =>
        simp only [if_pos] at h
        exact ih false h
      | false =>
        simp only [Bool.false_eq_true, if_false] at h
        rcases List.mem_cons.mp h with heq | h2
        · exact hx heq.symm
        · exact ih false h2

theorem sonameScan_id (l : List String) (h : ∀ o ∈ l, o ≠ "-soname") :
    sonameScan false l = l := by
  induction l with
  | nil => rfl
  | cons x rest ih =>
    have hx : ¬ x = "-soname" := h x (List.mem_cons_self _ _)
    simp only [sonameScan, if_neg hx, Bool.false_eq_true, if_false]
    rw [ih fun o ho => h o (List.mem_cons_of_mem _ ho)]

theorem removeSonameFlag_idem (a : String) :
    removeSonameFlag (removeSonameFlag a) = removeSonameFlag a := by
  rcases hres : sonameScan false (split a ',') with _ | ⟨r0, rrest⟩
  · have h1 : removeSonameFlag a = "" := by
      unfold removeSonameFlag
      rw [hres]
      rfl
    rw [h1]
    rfl
  · have hfree : ∀ o ∈ sonameScan false (split a ','), ',' ∉ o.data := fun o ho =>
      mem_split_no_comma a o (sonameScan_mem _ false o ho)
    by_cases hj : joinWith (sonameScan false (split a ',')) "," = "-Wl"
    · have h1 : removeSonameFlag a = "" := by
        unfold removeSonameFlag
        rw [hj]
        rfl
      rw [h1]
      rfl
    · have h1 : removeSonameFlag a = joinWith (sonameScan false (split a ',')) "," := by
        unfold removeSonameFlag
        simp [eraseIfWlOnly, hj]
      rw [h1]
      unfold removeSonameFlag
      rw [split_joinWith _ (by rw [hres]; simp) hfree]
      rw [sonameScan_id _ (fun o ho heq => sonameScan_no_soname _ false (heq ▸ ho))]
      simp [eraseIfWlOnly, hj]

/-- C6.  Both `-Wl` normalizers are idempotent: applying
`removeScriptFlag` twice to any argument string yields the same result as
applying it once, and likewise for `removeSonameFlag`. -/
theorem remove_flags_idempotent (argument : String) :
    removeScriptFlag (removeScriptFlag argument) = removeScriptFlag argument ∧
    removeSonameFlag (removeSonameFlag argument) = removeSonameFlag argument :=
  ⟨removeLinkerFlag_idem argument "--version-script" (by decide),
   removeSonameFlag_idem argument⟩

/-! ## C8: the maximum-alignment invariant -/

theorem le_foldr_max (a : Nat) (l : List Nat) (h : a ∈ l) : a ≤ l.foldr max 0 := by
  induction l with
  | nil => exact absurd h (List.not_mem_nil a)
  | cons x t ih =>
    rcases List.mem_cons.mp h with rfl | h2
    · exact Nat.le_max_left _ _
    · exact Nat.le_trans (ih h2) (Nat.le_max_right _ _)

theorem foldr_max_append (xs ys : List Nat) :
    (xs ++ ys).foldr max 0 = max (xs.foldr max 0) (ys.foldr max 0) := by
  induction xs with
  | nil => simp
  | cons x t ih => simp [ih, Nat.max_assoc]

theorem regMaxAlign_parts (s : ResolverState) :
    regMaxAlign s
      = max ((s.structs.map fun e => e.2.alignment).foldr max 0)
          (max ((s.enums.map fun e => e.2.alignment).foldr max 0)
            ((s.unions.map fun e => e.2.alignment).foldr max 0)) := by
  unfold regMaxAlign registryAlignments
  rw [foldr_max_append, foldr_max_append, Nat.max_assoc]

theorem addInfo_fst_none {α : Type} (nameOf : α → String) (id : Nat)
    (m : List (Nat × α)) (info : α) (h : assocLookup m id = none) :
    addInfo nameOf id m info = ((id, info) :: m, false) := by
  simp [addInfo, h]

theorem addInfo_fst_some {α : Type} (nameOf : α → String) (id : Nat)
    (m : List (Nat × α)) (info old : α) (h : assocLookup m id = some old) :
    (addInfo nameOf id m info).1 = updateEntry id info m ∨
    (addInfo nameOf id m info).1 = m := by
  simp only [addInfo, h]
  by_cases h1 : canBeReplaced (nameOf old) (nameOf info)
  · left
    simp [h1]
  · right
    rw [if_neg h1]
    split
    · rfl
    · split <;> rfl

theorem updateEntry_align_map {α : Type} (alignA : α → Nat) (id : Nat)
    (m : List (Nat × α)) (info : α)
    (hcons : ∀ e ∈ m, e.1 = id → alignA e.2 = alignA info) :
    (updateEntry id info m).map (fun e => alignA e.2)
      = m.map (fun e => alignA e.2) := by
  unfold updateEntry
  rw [List.map_map]
  refine List.map_congr_left fun e he => ?_
  by_cases h0 : e.1 = id
  · show alignA (if e.1 = id then (id, info) else e).2 = alignA e.2
    rw [if_pos h0]
    exact (hcons e he h0).symm
  · show alignA (if e.1 = id then (id, info) else e).2 = alignA e.2
    rw [if_neg h0]

theorem updateEntry_mem {α : Type} (id : Nat) (m : List (Nat × α)) (info : α)
    (P : Nat × α → Prop) (hm : ∀ e ∈ m, P e) (hinfo : P (id, info)) :
    ∀ e ∈ updateEntry id info m, P e := by
  intro e he
  unfold updateEntry at he
  rcases List.mem_map.mp he with ⟨e0, he0, rfl⟩
  by_cases h0 : e0.1 = id
  · rw [if_pos h0]
    exact hinfo
  · rw [if_neg h0]
    exact hm e0 he0

theorem addInfo_mem_preserve {α : Type} (nameOf : α → String) (id : Nat)
    (m : List (Nat × α)) (info : α) (P : Nat × α → Prop)
    (hm : ∀ e ∈ m, P e) (hinfo : P (id, info)) :
    ∀ e ∈ (addInfo nameOf id m info).1, P e := by
  intro e he
  cases hl : assocLookup m id with
  | none =>
    rw [addInfo_fst_none nameOf id m info hl] at he
    have he' : e ∈ (id, info) :: m := he
    rcases List.mem_cons.mp he' with rfl | h2
    · exact hinfo
    · exact hm e h2
  | some old =>
    rcases addInfo_fst_some nameOf id m info old hl with h1 | h1 <;> rw [h1] at he
    · exact updateEntry_mem id m info P hm hinfo e he
    · exact hm e he

theorem addInfo_fold_align {α : Type} (nameOf : α → String) (alignA : α → Nat)
    (id : Nat) (m : List (Nat × α)) (info : α)
    (hcons : ∀ e ∈ m, e.1 = id → alignA e.2 = alignA info) :
    (((addInfo nameOf id m info).1).map fun e => alignA e.2).foldr max 0
      = max (alignA info) ((m.map fun e => alignA e.2).foldr max 0) := by
  cases hl : assocLookup m id with
  | none =>
    rw [addInfo_fst_none nameOf id m info hl]
    rfl
  | some old =>
    have hold_mem : (id, old) ∈ m := assocLookup_mem m id old hl
    have hle : alignA info ≤ (m.map fun e => alignA e.2).foldr max 0 := by
      rw [← hcons (id, old) hold_mem rfl]
      exact le_foldr_max _ _ (List.mem_map.mpr ⟨(id, old), hold_mem, rfl⟩)
    rcases addInfo_fst_some nameOf id m info old hl with h1 | h1 <;> rw [h1]
    · rw [updateEntry_align_map alignA id m info hcons]
      exact (Nat.max_eq_right hle).symm
    · exact (Nat.max_eq_right hle).symm

theorem resolveStruct_align_invariant (ctx : FetcherCtx) (f : Nat → Nat → Nat)
    (d : RecordDeclM) (name : String) (s : ResolverState)
    (hd : d.alignment = f 0 d.id) (h : AlignInvariant f s) :
    AlignInvariant f (resolveStruct ctx d name s) := by
  unfold resolveStruct
  split
  · exact h
  · split
    · exact h
    · have hcons : ∀ e ∈ s.structs, e.1 = d.id →
          (fun i : StructInfoM => i.alignment) e.2 = d.alignment := by
        intro e he he1
        show e.2.alignment = d.alignment
        rw [h.2.1 e he, he1, ← hd]
      refine ⟨?_, ?_, ?_, ?_⟩
      · show max s.maximumAlignment d.alignment = regMaxAlign _
        rw [regMaxAlign_parts]
        dsimp only
        rw [addInfo_fold_align (fun i => i.name) (fun i => i.alignment) d.id s.structs _ hcons]
        rw [h.1, regMaxAlign_parts]
        simp [Nat.max_comm, Nat.max_left_comm, Nat.max_assoc]
      · intro e he
        refine addInfo_mem_preserve (fun i => i.name) d.id s.structs _
          (fun e => e.2.alignment = f 0 e.1) h.2.1 ?_ e he
        exact hd
      · exact h.2.2.1
      · exact h.2.2.2

theorem resolveUnion_align_invariant (ctx : FetcherCtx) (f : Nat → Nat → Nat)
    (d : RecordDeclM) (name : String) (s : ResolverState)
    (hd : d.alignment = f 1 d.id) (h : AlignInvariant f s) :
    AlignInvariant f (resolveUnion ctx d name s) := by
  unfold resolveUnion
  split
  · exact h
  · split
    · exact h
    · have hcons : ∀ e ∈ s.unions, e.1 = d.id →
          (fun i : UnionInfoM => i.alignment) e.2 = d.alignment := by
        intro e he he1
        show e.2.alignment = d.alignment
        rw [h.2.2.1 e he, he1, ← hd]
      refine ⟨?_, ?_, ?_, ?_⟩
      · show max s.maximumAlignment d.alignment = regMaxAlign _
        rw [regMaxAlign_parts]
        dsimp only
        rw [addInfo_fold_align (fun i => i.name) (fun i => i.alignment) d.id s.unions _ hcons]
        rw [h.1, regMaxAlign_parts]
        simp [Nat.max_comm, Nat.max_left_comm, Nat.max_assoc]
      · exact h.2.1
      · intro e he
        refine addInfo_mem_preserve (fun i => i.name) d.id s.unions _
          (fun e => e.2.alignment = f 1 e.1) h.2.2.1 ?_ e he
        exact hd
      · exact h.2.2.2

theorem resolveEnum_align_invariant (ctx : FetcherCtx) (f : Nat → Nat → Nat)
    (d : EnumDeclM) (name : String) (s : ResolverState)
    (hd : d.alignment = f 2 d.id) (h : AlignInvariant f s) :
    AlignInvariant f (resolveEnum ctx d name s) := by
  unfold resolveEnum
  split
  · exact h
  · have hcons : ∀ e ∈ s.enums, e.1 = d.id →
        (fun i : EnumInfoM => i.alignment) e.2 = d.alignment := by
      intro e he he1
      show e.2.alignment = d.alignment
      rw [h.2.2.2 e he, he1, ← hd]
    refine ⟨?_, ?_, ?_, ?_⟩
    · show max s.maximumAlignment d.alignment = regMaxAlign _
      rw [regMaxAlign_parts]
      dsimp only
      rw [addInfo_fold_align (fun i => i.name) (fun i => i.alignment) d.id s.enums _ hcons]
      rw [h.1, regMaxAlign_parts]
      simp [Nat.max_comm, Nat.max_left_comm, Nat.max_assoc]
    · exact h.2.1
    · exact h.2.2.1
    · intro e he
      refine addInfo_mem_preserve (fun i => i.name) d.id s.enums _
        (fun e => e.2.alignment = f 2 e.1) h.2.2.2 ?_ e he
      exact hd

theorem resolve_align_invariant (ctx : FetcherCtx) (f : Nat → Nat → Nat)
    (q : Option TagDeclM)
    (hq : ∀ d, q = some d → alignOf d = f (registryOf d) (idOf d))
    (s : ResolverState) (h : AlignInvariant f s) :
    AlignInvariant f (resolve ctx q s) := by
  match q with
  | none => exact h
  | some (.record .structKind d) =>
      exact resolveStruct_align_invariant ctx f d d.name s (hq _ rfl) h
  | some (.record .classKind d) =>
      exact resolveStruct_align_invariant ctx f d d.name s (hq _ rfl) h
  | some (.record .unionKind d) =>
      exact resolveUnion_align_invariant ctx f d d.name s (hq _ rfl) h
  | some (.enum d) =>
      exact resolveEnum_align_invariant ctx f d d.name s (hq _ rfl) h

theorem runPass_align_invariant (ctx : FetcherCtx) (f : Nat → Nat → Nat) :
    ∀ (decls : List (Option TagDeclM)) (s : ResolverState),
      (∀ q ∈ decls, ∀ d, q = some d → alignOf d = f (registryOf d) (idOf d)) →
      AlignInvariant f s → AlignInvariant f (runPass ctx decls s) := by
  intro decls
  induction decls with
  | nil => exact fun s _ h => h
  | cons q qs ih =>
    intro s hq h
    show AlignInvariant f (runPass ctx qs (resolve ctx q s))
    exact ih _ (fun q' hq' => hq q' (List.mem_cons_of_mem _ hq'))
      (resolve_align_invariant ctx f q (hq q (List.mem_cons_self _ _)) s h)

/-- C8.  After every successful registry insertion (struct, enum or
union — i.e. whenever the id is a replacement candidate and, for records and
unions, the declaration is not dropped as a gtest header),
`maximumAlignment` becomes `max(current, entry.alignment)`; and at the end of
a resolution pass started from the empty state, `maximumAlignment` equals the
maximum alignment over all entries of the three registries, provided the
visited declarations assign a consistent (id-determined) alignment — in the
code both the id and the alignment are derived from the same canonical
type. -/
theorem maximumAlignment_invariant (ctx : FetcherCtx) :
    (∀ (d : RecordDeclM) (name : String) (s : ResolverState),
        isCandidateToReplace (fun i => i.name) d.id s.structs name = true →
        ctx.isGtest d.filePath = false →
        (resolveStruct ctx d name s).maximumAlignment
          = max s.maximumAlignment d.alignment) ∧
    (∀ (d : EnumDeclM) (name : String) (s : ResolverState),
        isCandidateToReplace (fun i => i.name) d.id s.enums name = true →
        (resolveEnum ctx d name s).maximumAlignment
          = max s.maximumAlignment d.alignment) ∧
    (∀ (d : RecordDeclM) (name : String) (s : ResolverState),
        isCandidateToReplace (fun i => i.name) d.id s.unions name = true →
        ctx.isGtest d.filePath = false →
        (resolveUnion ctx d name s).maximumAlignment
          = max s.maximumAlignment d.alignment) ∧
    (∀ (alignOfId : Nat → Nat → Nat) (decls : List (Option TagDeclM)),
        (∀ q ∈ decls, ∀ d, q = some d →
            alignOf d = alignOfId (registryOf d) (idOf d)) →
        (runPass ctx decls emptyResolverState).maximumAlignment
          = regMaxAlign (runPass ctx decls emptyResolverState)) := by
  refine ⟨fun d name s h1 h2 => ?_, fun d name s h1 => ?_,
    fun d name s h1 h2 => ?_, fun alignOfId decls hq => ?_⟩
  · simp [resolveStruct, h1, h2]
  · simp [resolveEnum, h1]
  · simp [resolveUnion, h1, h2]
  · exact (runPass_align_invariant ctx alignOfId decls emptyResolverState hq
      ⟨rfl, fun e he => absurd he (List.not_mem_nil e),
        fun e he => absurd he (List.not_mem_nil e),
        fun e he => absurd he (List.not_mem_nil e)⟩).1

/-- Witness for C8 at a concrete enum insertion into the empty state. -/
theorem maximumAlignment_invariant_witness :
    (resolveEnum
        { isGtest := fun _ => false, structsDeclared := fun _ => [],
          mainFilePath := "m.c" }
        { id := 1, name := "E", filePath := "a.c", definition := "enum E",
          size := 4, alignment := 4, access := none, enumerators := [] }
        "E" emptyResolverState).maximumAlignment = 4 :=
  ((maximumAlignment_invariant
      { isGtest := fun _ => false, structsDeclared := fun _ => [],
        mainFilePath := "m.c" }).2.1
    { id := 1, name := "E", filePath := "a.c", definition := "enum E",
      size := 4, alignment := 4, access := none, enumerators := [] }
    "E" emptyResolverState (by decide)).trans (by decide)

/-! ## C2: the stub-taint tag of the link traversal -/

theorem BuildType.union_none_right (t : BuildType) : t.union .NONE = t := by
  cases t <;> rfl

theorem BuildType.union_assoc (a b c : BuildType) :
    (a.union b).union c = a.union (b.union c) := by
  cases a <;> cases b <;> cases c <;> rfl

theorem foldl_union_acc (l : List BuildType) :
    ∀ acc, l.foldl BuildType.union acc = acc.union (tagsUnion l) := by
  induction l with
  | nil => exact fun acc => (BuildType.union_none_right acc).symm
  | cons t l ih =>
    intro acc
    show List.foldl BuildType.union (acc.union t) l
      = acc.union (List.foldl BuildType.union t l)
    rw [ih (acc.union t), ih t, BuildType.union_assoc]

theorem tagsUnion_append (xs ys : List BuildType) :
    tagsUnion (xs ++ ys) = (tagsUnion xs).union (tagsUnion ys) := by
  show (xs ++ ys).foldl BuildType.union BuildType.NONE = _
  rw [List.foldl_append]
  exact foldl_union_acc ys (tagsUnion xs)

theorem specList_cons (stub : String → Bool) (c : LinkUnit) (cs : List LinkUnit) :
    tagsUnion ((reachableObjectsList (c :: cs)).map (objTag stub))
      = (specLinkTag stub c).union
          (tagsUnion ((reachableObjectsList cs).map (objTag stub))) := by
  show tagsUnion ((reachableObjects c ++ reachableObjectsList cs).map (objTag stub)) = _
  rw [List.map_append, tagsUnion_append]
  rfl

theorem lookupCache_sound (sem : String → BuildType) :
    ∀ (cache : List (String × BuildType)), CacheOK sem cache →
      ∀ p t, lookupCache cache p = some t → t = sem p := by
  intro cache
  induction cache with
  | nil =>
    intro _ p t hl
    simp [lookupCache] at hl
  | cons e rest ih =>
    intro h p t hl
    by_cases he : e.1 = p
    · simp only [lookupCache, if_pos he] at hl
      have h2 := h e (List.mem_cons_self _ _)
      rw [← Option.some_inj.mp hl, h2, he]
    · simp only [lookupCache, if_neg he] at hl
      exact ih (fun e' he' => h e' (List.mem_cons_of_mem _ he')) p t hl

theorem addLinkChildren_spec (stub : String → Bool) (sem : String → BuildType) :
    ∀ (cs : List LinkUnit), (∀ c ∈ cs, LinkP stub sem c) →
      ∀ acc cache, CacheOK sem cache → coherentList stub sem cs = true →
        (addLinkChildren stub cache acc cs).1
            = acc.union (tagsUnion ((reachableObjectsList cs).map (objTag stub))) ∧
        CacheOK sem (addLinkChildren stub cache acc cs).2 := by
  intro cs
  induction cs with
  | nil =>
    intro _ acc cache hOK _
    exact ⟨(BuildType.union_none_right acc).symm, hOK⟩
  | cons c cs ih =>
    intro hP acc cache hOK hcoh
    have hcoh1 : coherent stub sem c = true ∧ coherentList stub sem cs = true := by
      simpa [coherentList, Bool.and_eq_true] using hcoh
    have h1 := hP c (List.mem_cons_self _ _) cache hOK hcoh1.1
    have h2 := ih (fun c' hc' => hP c' (List.mem_cons_of_mem _ hc'))
      (acc.union (addLinkTargetRecursively stub cache c).1)
      (addLinkTargetRecursively stub cache c).2 h1.2 hcoh1.2
    constructor
    · show (addLinkChildren stub (addLinkTargetRecursively stub cache c).2
          (acc.union (addLinkTargetRecursively stub cache c).1) cs).1 = _
      rw [h2.1, h1.1, specList_cons, BuildType.union_assoc]
    · exact h2.2

theorem addLink_ok (stub : String → Bool) (sem : String → BuildType) :
    ∀ (n : Nat) (u : LinkUnit), sizeOf u ≤ n → LinkP stub sem u := by
  intro n
  induction n with
  | zero =>
    intro u h
    exfalso
    cases u <;> simp_all
  | succ n ih =>
    intro u hu cache hOK hcoh
    cases u with
    | obj p =>
      have hsem : sem p = objTag stub p := by
        simpa [coherent, beq_iff_eq] using hcoh
      cases hl : lookupCache cache p with
      | some t =>
        have ht : t = sem p := lookupCache_sound sem cache hOK p t hl
        constructor
        · simp only [addLinkTargetRecursively, hl]
          show t = specLinkTag stub (.obj p)
          rw [ht, hsem]
          rfl
        · simp only [addLinkTargetRecursively, hl]
          exact hOK
      | none =>
        constructor
        · simp only [addLinkTargetRecursively, hl]
          rfl
        · simp only [addLinkTargetRecursively, hl]
          intro e he
          rcases List.mem_cons.mp he with rfl | h2
          · exact hsem.symm
          · exact hOK e h2
    | link p cs =>
      have hchildren : ∀ c ∈ cs, LinkP stub sem c := by
        intro c hc
        refine ih c ?_
        have h1 : sizeOf c < sizeOf cs := List.sizeOf_lt_of_mem hc
        have h2 : sizeOf (LinkUnit.link p cs) = 1 + sizeOf p + sizeOf cs := by simp
        omega
      have hcohs : coherentList stub sem cs = true ∧
          (sem p == specLinkTag stub (.link p cs)) = true := by
        simpa [coherent, Bool.and_eq_true] using hcoh
      have hsem : sem p = specLinkTag stub (.link p cs) := by
        have h3 := hcohs.2
        simpa [beq_iff_eq] using h3
      cases hl : lookupCache cache p with
      | some t =>
        have ht : t = sem p := lookupCache_sound sem cache hOK p t hl
        constructor
        · simp only [addLinkTargetRecursively, hl]
          show t = specLinkTag stub (.link p cs)
          rw [ht, hsem]
        · simp only [addLinkTargetRecursively, hl]
          exact hOK
      | none =>
        have hlist := addLinkChildren_spec stub sem cs hchildren .NONE cache hOK hcohs.1
        constructor
        · simp only [addLinkTargetRecursively, hl]
          show (addLinkChildren stub cache .NONE cs).1 = specLinkTag stub (.link p cs)
          rw [hlist.1]
          rfl
        · simp only [addLinkTargetRecursively, hl]
          intro e he
          rcases List.mem_cons.mp he with rfl | h2
          · show (addLinkChildren stub cache .NONE cs).1 = sem p
            rw [hlist.1, hsem]
            rfl
          · exact hlist.2 e h2

/-- C2.  For every link unit processed by `addLinkTargetRecursively`
(from any sound memo map, in particular the empty one), the `type` tag of the
returned build result equals the union — the monoid with identity `NONE` — of
the tags of all object files reachable from the unit in the link-dependency
DAG, where stub objects contribute `ALL_STUBS` and all other objects
`NO_STUBS`.  The coherence hypothesis states that equal paths denote equal
units, which is what makes the `buildResults` memoization sound in the real
DAG. -/
theorem addLinkTargetRecursively_type_union (stub : String → Bool)
    (sem : String → BuildType) (u : LinkUnit)
    (cache : List (String × BuildType)) (hcache : CacheOK sem cache)
    (hcoh : coherent stub sem u = true) :
    (addLinkTargetRecursively stub cache u).1
      = tagsUnion ((reachableObjects u).map (objTag stub)) :=
  (addLink_ok stub sem (sizeOf u) u (Nat.le_refl _) cache hcache hcoh).1

/-- Witness for C2: a unit with one stub object, one shared child and a
repeated non-stub object computes the `MIXED` tag. -/
theorem addLinkTargetRecursively_type_union_witness :
    (addLinkTargetRecursively (fun p => p == "b.o") []
        (.link "app" [.obj "a.o", .link "lib.so" [.obj "b.o"], .obj "a.o"])).1
      = BuildType.MIXED :=
  (addLinkTargetRecursively_type_union (fun p => p == "b.o")
      (fun p => if p == "b.o" then .ALL_STUBS
        else if p == "lib.so" then .ALL_STUBS
        else if p == "app" then .MIXED else .NO_STUBS)
      (.link "app" [.obj "a.o", .link "lib.so" [.obj "b.o"], .obj "a.o"]) []
      (fun e he => absurd he (List.not_mem_nil e))
      (by decide)).trans (by decide)

/-! ## C7: executable link-command rewriting -/

/-- C7.  For a non-archive command of an executable link unit: when the
executable is transformed to a library the rewritten command has `-shared`
prepended (and its action is the plain command); otherwise (relocatable
output) the linker is the system `ld`, `-r` is prepended, every surviving
argument has had `-Wl,…` transformed into bare whitespace-separated
arguments, and the emitted action is the command followed by
`&& objcopy --redefine-sym main=main__ <output>`. -/
theorem addLinkTargetRecursively_executable_commands (ctx : EmitterCtx)
    (files : List String) (fileMapping : String → String)
    (recompiledFile : String) (cmd : LinkCmd) (hArch : cmd.isArchive = false) :
    ((transformLinkCommand ctx true true files fileMapping recompiledFile cmd).1.args.head?
        = some "-shared" ∧
      (transformLinkCommand ctx true true files fileMapping recompiledFile cmd).2
        = cmdToString
            (transformLinkCommand ctx true true files fileMapping recompiledFile cmd).1) ∧
    ((transformLinkCommand ctx true false files fileMapping recompiledFile cmd).1.linker
        = tryChangeToRelativePath ctx.getRelativePath
            (ctx.relativeForLinker ctx.ldPath) ∧
      (transformLinkCommand ctx true false files fileMapping recompiledFile cmd).1.args
        = ("-r" :: "$(LDFLAGS)" ::
            (libraryDirFlags ctx
                ((((cmd.args.filter fun a => a ≠ "-static").map
                    (fun a => if files.contains a then fileMapping a else a)).map
                    transformCompilerFlagsToLinkerFlags).map
                  (fun a => removeSonameFlag (removeScriptFlag a))) ++
              (((cmd.args.filter fun a => a ≠ "-static").map
                  (fun a => if files.contains a then fileMapping a else a)).map
                  transformCompilerFlagsToLinkerFlags).map
                (fun a => removeSonameFlag (removeScriptFlag a)))).map
            (tryChangeToRelativePath ctx.getRelativePath) ∧
      (transformLinkCommand ctx true false files fileMapping recompiledFile cmd).1.args.head?
        = some "-r" ∧
      (transformLinkCommand ctx true false files fileMapping recompiledFile cmd).2
        = cmdToString
            (transformLinkCommand ctx true false files fileMapping recompiledFile cmd).1
          ++ " && objcopy --redefine-sym main=main__ "
          ++ (transformLinkCommand ctx true false files fileMapping
                recompiledFile cmd).1.output) := by
  refine ⟨⟨?_, ?_⟩, ?_, ?_, ?_, ?_⟩ <;>
    · unfold transformLinkCommand
      rw [hArch]
      rfl

/-- Witness for C7: a concrete relocatable-executable command gets `-r`
prepended, its `-Wl,-z,now` argument rewritten to the bare `-z now`, its
input substituted and relativized. -/
theorem addLinkTargetRecursively_executable_commands_witness :
    (transformLinkCommand
        { ldPath := "/usr/bin/ld", bundledCompilerOf := fun _ => "/utbot/gcc",
          coverageLinkFlags := "--coverage",
          sanitizerLinkFlags := "-fsanitize=address",
          getRelativePath := fun s => String.mk (s.data.drop 1),
          relativeForLinker := fun s => s,
          libraryAbsolutePath := fun _ => none,
          isSubOfBuildDir := fun _ => false, recompiledOf := fun s => s }
        true false ["a.o"] (fun _ => "/build/a.o") "/build/app.o"
        { linker := "/usr/bin/gcc", args := ["-Wl,-z,now", "a.o", "-static"],
          output := "app", dir := "/proj", isArchive := false,
          isShared := false }).1.args
      = ["-r", "$(LDFLAGS)", "-z now", "build/a.o"] :=
  ((addLinkTargetRecursively_executable_commands
      { ldPath := "/usr/bin/ld", bundledCompilerOf := fun _ => "/utbot/gcc",
        coverageLinkFlags := "--coverage",
        sanitizerLinkFlags := "-fsanitize=address",
        getRelativePath := fun s => String.mk (s.data.drop 1),
        relativeForLinker := fun s => s,
        libraryAbsolutePath := fun _ => none,
        isSubOfBuildDir := fun _ => false, recompiledOf := fun s => s }
      ["a.o"] (fun _ => "/build/a.o") "/build/app.o"
      { linker := "/usr/bin/gcc", args := ["-Wl,-z,now", "a.o", "-static"],
        output := "app", dir := "/proj", isArchive := false,
        isShared := false } rfl).2.2.1).trans (by decide)

end UTBot

